import Mathlib

/-!
Verification of the ParallelQR dynamic-task-scheduling QR factorization
(src/ParallelQR/main.cpp) against its natural-language specification.

Modelling conventions:
* C `double` values are modelled as exact rationals (`ℚ`); the C library
  function `sqrt` is threaded through the kernels as an explicit parameter
  `rsqrt : ℚ → ℚ`, so every definition stays computable.  Theorems that need
  properties of the square root take them as hypotheses (e.g. `rsqrt 1 = 1`).
* The flat row-major matrix buffer `double *mat` is modelled as a total
  function `ℕ → ℚ`; the source index expression `mat[j * n + i]` is kept
  verbatim as `mat (j * n + i)`.
* The two global reflector arrays and the matrix are gathered in `QRState`.
  The extra field `upWrites` is a ghost write counter: it is bumped exactly
  where the source stores to `global_up_array`, and records nothing else.
* C loops are modelled by structural recursion on an explicit iteration
  count (`fuel`), with the running index passed along, mirroring the loop
  headers of the source.
-/

namespace ParQR

/-- State shared by the numerical kernels: the flat row-major matrix buffer
`mat` (`double *mat`), the reflector arrays `global_up_array` and
`global_b_array`, and a ghost counter `upWrites i` of how many times
`global_up_array[i]` has been stored to. -/
structure QRState where
  mat : ℕ → ℚ
  up_array : ℕ → ℚ
  b_array : ℕ → ℚ
  upWrites : ℕ → ℕ

section Kernels

variable (rsqrt : ℚ → ℚ)

/-- The scan loop of `complete_task1` (main.cpp lines 64-69):
`for (k = lpivot+1; k < n; k++) { sm = fabs(mat[lpivot*n+k]); sm1 += sm*sm;
cl = fmax(sm, cl); }`, recursing on the remaining iteration count.
The accumulator pair is `(cl, sm1)`. -/
def scanStep (mat : ℕ → ℚ) (n p : ℕ) : ℕ → ℕ → ℚ × ℚ → ℚ × ℚ
  | _, 0, acc => acc
  | k, fuel+1, acc =>
      let sm := |mat (p * n + k)|
      scanStep mat n p (k+1) fuel (max sm acc.1, acc.2 + sm * sm)

/-- Lines 61-69 of `complete_task1`: starting accumulator
`cl = fabs(mat[lpivot*n+lpivot])`, `sm1 = 0`, then the scan loop over
`k ∈ [lpivot+1, n)`. -/
def rowScan (mat : ℕ → ℚ) (n p : ℕ) : ℚ × ℚ :=
  scanStep mat n p (p+1) (n - (p+1)) (|mat (p * n + p)|, 0)

/-- The inner accumulation loop shared by both kernels (lines 112-115 and
150-153): `for (i = lpivot+1; i < n; i++) sm += mat[j*n+i] * mat[lpivot*n+i]`. -/
def smAcc (mat : ℕ → ℚ) (n p j : ℕ) : ℕ → ℕ → ℚ → ℚ
  | _, 0, sm => sm
  | i, fuel+1, sm => smAcc mat n p j (i+1) fuel (sm + mat (j * n + i) * mat (p * n + i))

/-- The inner update loop shared by both kernels (lines 125-128 and 163-166):
`for (i = lpivot+1; i < n; i++) mat[j*n+i] += sm * mat[lpivot*n+i]`. -/
def innerUpd (n p j : ℕ) (sm2 : ℚ) : (ℕ → ℚ) → ℕ → ℕ → (ℕ → ℚ)
  | mat, _, 0 => mat
  | mat, i, fuel+1 =>
      innerUpd n p j sm2
        (Function.update mat (j * n + i) (mat (j * n + i) + sm2 * mat (p * n + i)))
        (i+1) fuel

/-- One iteration of the reflector-application column loop, shared by both
kernels (lines 110-128 and 148-166): accumulate `sm`, early-exit when
`sm == 0`, otherwise scale by `b` and update row `j`. -/
def applyRow (up b : ℚ) (mat : ℕ → ℚ) (n p j : ℕ) : ℕ → ℚ :=
  let sm := smAcc mat n p j (p+1) (n - (p+1)) (mat (j * n + p) * up)
  if sm = 0 then mat
  else
    let sm2 := sm * b
    let mat1 := Function.update mat (j * n + p) (mat (j * n + p) + sm2 * up)
    innerUpd n p j sm2 mat1 (p+1) (n - (p+1))

/-- The column loop `for (j = ...; j < col_end; j++)` applying one reflector
to successive rows `j`, recursing on the remaining iteration count. -/
def colLoop (up b : ℚ) (n p : ℕ) : (ℕ → ℚ) → ℕ → ℕ → (ℕ → ℚ)
  | mat, _, 0 => mat
  | mat, j, fuel+1 => colLoop up b n p (applyRow up b mat n p j) (j+1) fuel

/-- Lines 96-129 of `complete_task1`, the part after the diagonal write:
compute `b = up * mat[lpivot*n+lpivot]`; if `b >= 0` skip the rest of this
pivot (`continue`), else invert `b`, store the reflector pair into the
global arrays, and run the column loop over `j ∈ [lpivot+1, col_end)`.
The ghost counter `upWrites` is bumped exactly at the store to
`global_up_array[lpivot]`. -/
def reflectPhase (up b : ℚ) (n col_end p : ℕ) (st : QRState) : QRState :=
  if 0 ≤ b then st
  else
    let b1 := 1 / b
    { mat := colLoop up b1 n p st.mat (p+1) (col_end - (p+1)),
      up_array := Function.update st.up_array p up,
      b_array := Function.update st.b_array p b1,
      upWrites := Function.update st.upWrites p (st.upWrites p + 1) }

/-- The body of one pivot iteration of `complete_task1` (lines 61-129).
`continue` is modelled by returning the state accumulated so far. The check
`row_end - lpivot < 0` is the source's (always-false inside the loop) signed
test, kept verbatim over `ℤ`. -/
def pivotStep (n row_end col_end : ℕ) (st : QRState) (p : ℕ) : QRState :=
  let scan := rowScan st.mat n p
  let cl := scan.1
  let sm1 := scan.2
  if cl ≤ 0 then st
  else
    let clinv := 1 / cl
    let d1 := st.mat (p * n + p) * clinv
    let sm := d1 * d1 + sm1 * clinv * clinv
    let cl1 := cl * rsqrt sm
    let cl2 := if 0 < st.mat (p * n + p) then -cl1 else cl1
    let up := st.mat (p * n + p) - cl2
    let st1 : QRState := { st with mat := Function.update st.mat (p * n + p) cl2 }
    if (row_end : ℤ) - (p : ℤ) < 0 then st1
    else reflectPhase up (up * st1.mat (p * n + p)) n col_end p st1

/-- The pivot loop `for (lpivot = _row_start; lpivot < row_end; lpivot++)`
of `complete_task1`. -/
def t1Loop (n row_end col_end : ℕ) : QRState → ℕ → ℕ → QRState
  | st, _, 0 => st
  | st, p, fuel+1 =>
      t1Loop n row_end col_end (pivotStep rsqrt n row_end col_end st p) (p+1) fuel

/-- The start-index normalization shared by both kernels:
`int _row_start = row_start == 1 ? 0 : row_start;` (lines 57, 136, 137). -/
def normStart (s : ℕ) : ℕ := if s = 1 then 0 else s

/-- Kernel `complete_task1` (main.cpp lines 53-131): the panel-factor kernel.
`m` and `col_start` are parameters of the C function that its body never
reads; they are kept for signature fidelity. -/
def complete_task1 (m n row_start row_end col_start col_end : ℕ)
    (st : QRState) : QRState :=
  t1Loop rsqrt n row_end col_end st (normStart row_start)
    (row_end - normStart row_start)

/-- The pivot loop of `complete_task2` (lines 141-167): for each pivot, load
`up = global_up_array[lpivot]`, `b = global_b_array[lpivot]` and run the
column loop over `j ∈ [_col_start, col_end)`. -/
def t2Loop (n col_start col_end : ℕ) (up_array b_array : ℕ → ℚ) :
    (ℕ → ℚ) → ℕ → ℕ → (ℕ → ℚ)
  | mat, _, 0 => mat
  | mat, p, fuel+1 =>
      t2Loop n col_start col_end up_array b_array
        (colLoop (up_array p) (b_array p) n p mat (normStart col_start)
          (col_end - normStart col_start))
        (p+1) fuel

/-- Kernel `complete_task2` (main.cpp lines 133-169): the panel-update kernel.
It only mutates the matrix; the reflector arrays are read-only here. -/
def complete_task2 (m n row_start row_end col_start col_end : ℕ)
    (st : QRState) : QRState :=
  { st with
    mat := t2Loop n col_start col_end st.up_array st.b_array st.mat
      (normStart row_start) (row_end - normStart row_start) }

end Kernels

/-! ### Specification-side definitions (4.5.1 steps 1-4, written from the
spec's words, to be compared with the source-derived definitions) -/

/-- Spec 4.5.1 step 1: `cl = max(|M[p,p]|, max_{k=p+1..N-1} |M[p,k]|)`. -/
def specCl (mat : ℕ → ℚ) (n p : ℕ) : ℚ :=
  (Finset.Ico (p+1) n).fold max (|mat (p * n + p)|) (fun k => |mat (p * n + k)|)

/-- Spec 4.5.1 step 1: `sm1 = Σ_{k=p+1..N-1} M[p,k]²`. -/
def specSm1 (mat : ℕ → ℚ) (n p : ℕ) : ℚ :=
  ∑ k in Finset.Ico (p+1) n, (mat (p * n + k))^2

/-- Spec 4.5.1 step 3: `clinv = 1/cl`, `d = M[p,p]·clinv`,
`sm = d² + sm1·clinv²`, `cl ← cl·√sm`, and if `M[p,p] > 0` then `cl ← -cl`.
This is the value written to `M[p,p]` in step 4. -/
def specClNew (rsqrt : ℚ → ℚ) (mat : ℕ → ℚ) (n p : ℕ) : ℚ :=
  let cl := specCl mat n p
  let clinv := 1 / cl
  let d := mat (p * n + p) * clinv
  let sm := d^2 + specSm1 mat n p * clinv^2
  let cl1 := cl * rsqrt sm
  if 0 < mat (p * n + p) then -cl1 else cl1

/-- Spec 4.5.1 step 4: `up = M[p,p] - cl` (old diagonal minus new). -/
def specUp (rsqrt : ℚ → ℚ) (mat : ℕ → ℚ) (n p : ℕ) : ℚ :=
  mat (p * n + p) - specClNew rsqrt mat n p

/-- Spec 4.5.1 step 4: `b = up · M[p,p]` with `M[p,p]` the freshly written
new diagonal value. -/
def specB (rsqrt : ℚ → ℚ) (mat : ℕ → ℚ) (n p : ℕ) : ℚ :=
  specUp rsqrt mat n p * specClNew rsqrt mat n p

/-! ### Source-side named scalar values of one pivot step -/

/-- The value of `cl` after the scan loop (source lines 61-69). -/
def clS (mat : ℕ → ℚ) (n p : ℕ) : ℚ := (rowScan mat n p).1

/-- The value of `sm1` after the scan loop (source lines 61-69). -/
def sm1S (mat : ℕ → ℚ) (n p : ℕ) : ℚ := (rowScan mat n p).2

/-- The value written to `mat[lpivot*n+lpivot]` at line 89, as computed by
lines 75-86 of the source. -/
def clNewS (rsqrt : ℚ → ℚ) (mat : ℕ → ℚ) (n p : ℕ) : ℚ :=
  let cl := clS mat n p
  let clinv := 1 / cl
  let d1 := mat (p * n + p) * clinv
  let sm := d1 * d1 + sm1S mat n p * clinv * clinv
  let cl1 := cl * rsqrt sm
  if 0 < mat (p * n + p) then -cl1 else cl1

/-- The value of `up` at line 88 of the source. -/
def upS (rsqrt : ℚ → ℚ) (mat : ℕ → ℚ) (n p : ℕ) : ℚ :=
  mat (p * n + p) - clNewS rsqrt mat n p

/-- The value of `b` at line 96 of the source (before the inversion). -/
def bS (rsqrt : ℚ → ℚ) (mat : ℕ → ℚ) (n p : ℕ) : ℚ :=
  upS rsqrt mat n p * clNewS rsqrt mat n p

/-! ### Driver (`dagqrf`, main.cpp lines 273-308) -/

/-- Compile-time block parameter `#define ALPHA 11` (main.cpp line 17). -/
def ALPHA : ℕ := 11

/-- Compile-time block parameter `#define BETA 11` (main.cpp line 16). -/
def BETA : ℕ := 11

/-- Compile-time worker count `#define NUM_THREADS 26` (main.cpp line 14). -/
def NUMTHREADS : ℕ := 26

/-- The entry of `dagqrf` (lines 273-282): compute the task-grid dimensions
`total_task_rows = ⌈mat_rows/BETA⌉` and `total_task_cols = ⌈mat_rows/ALPHA⌉`
and proceed to table initialization.  The `Option` result models a
fail-fast rejection path (`none`); the source has no such path, so the
function is unconditionally `some`. -/
def dagqrfEntry (mat_rows mat_cols : ℕ) : Option (ℕ × ℕ) :=
  some ((mat_rows + BETA - 1) / BETA, (mat_rows + ALPHA - 1) / ALPHA)

/-- Modelled from the spec: the validation §4.7 claims the driver performs at
entry (`ALPHA`, `BETA`, M, N > 0; `BETA % ALPHA == 0`; worker count > 0).
This definition follows the spec's words; no corresponding code exists in
`dagqrf`. -/
def specValidate (mat_rows mat_cols w alpha beta : ℕ) : Option Unit :=
  if 0 < alpha ∧ 0 < beta ∧ 0 < mat_rows ∧ 0 < mat_cols ∧
      beta % alpha = 0 ∧ 0 < w then some () else none

/-! ### Scheduler (`thdwork`, main.cpp lines 171-244) -/

/-- Task descriptor, as used by `thdwork`.  The grid coordinates are C
`int`s, modelled as `ℤ`.  The row/column ranges given to the kernels are
nonnegative, modelled as `ℕ`. -/
structure Task where
  type : ℕ
  i : ℤ
  j : ℤ
  row_start : ℕ
  row_end : ℕ
  col_start : ℕ
  col_end : ℕ
  priority : ℤ
  enq_nxt_t1 : Bool
  deriving DecidableEq

/-- Modelled from the spec: `DependencyTableAtomic.setDependency` (the class
lives in include/bn2.h, which is not under src); §4.4 describes the table as
a grid of booleans with per-cell set/get. -/
def setDep (d : ℤ → ℤ → Bool) (i j : ℤ) : ℤ → ℤ → Bool :=
  fun a b => if a = i ∧ b = j then true else d a b

/-- Modelled from the spec: `TaskTable.getTask` and the table construction
of §4.3 (the TaskTable class lives in include/bn2.h, which is not under
src).  `R = BETA / ALPHA`; `type = 1` iff `j = i·R`; row range
`[i·BETA, min((i+1)·BETA, M))`; column range `[j·ALPHA, min((j+1)·ALPHA, M))`;
`priority = (TR - i)·2 + (type == 1 ? 1 : 0)`; `enq_nxt_t1` iff
`j + 1 = (i+1)·R` and `i + 1 < TR` (§4.6 R3). -/
def getTask (TR R alpha beta M : ℕ) (i j : ℤ) : Task :=
  { type := if j = i * R then 1 else 2
    i := i
    j := j
    row_start := i.toNat * beta
    row_end := min ((i.toNat + 1) * beta) M
    col_start := j.toNat * alpha
    col_end := min ((j.toNat + 1) * alpha) M
    priority := ((TR : ℤ) - i) * 2 + (if j = i * R then 1 else 0)
    enq_nxt_t1 := decide (j + 1 = (i + 1) * (R : ℤ) ∧ i + 1 < (TR : ℤ)) }

/-- Scheduler configuration: grid dimensions, `R = BETA_DIV_ALPHA`, matrix
dimensions and the (immutable) task table. -/
structure SchedCfg where
  TR : ℤ
  TC : ℤ
  R : ℤ
  m : ℕ
  n : ℕ
  tbl : ℤ → ℤ → Task

/-- Scheduler state: the main task queue `taskPQ`, the `wait_queue`, the
dependency table and the shared numerical state. -/
structure SchedState where
  ready : List Task
  wait : List Task
  dep : ℤ → ℤ → Bool
  qr : QRState

/-- The list of C `int`s `a, a+1, ..., b-1` (empty when `b ≤ a`). -/
def intRange (a b : ℤ) : List ℤ :=
  (List.range (b - a).toNat).map (fun k => (a + k : ℤ))

/-- The successor loop after a type-1 completion (lines 197-209): for each
`k ∈ (i, TR)` look up task `(k, j)`; push it to `taskPQ` when
`j == 0 || dependency(k, j-1)`, else push it to `wait_queue`. -/
def pushSuccessors (tbl : ℤ → ℤ → Task) (TR : ℤ) (dep : ℤ → ℤ → Bool)
    (i j : ℤ) (ready wait : List Task) : List Task × List Task :=
  (intRange (i+1) TR).foldl
    (fun qs k =>
      let nt := tbl k j
      if j = 0 ∨ dep k (j-1) then (qs.1 ++ [nt], qs.2) else (qs.1, qs.2 ++ [nt]))
    (ready, wait)

/-- Lines 183-220 of `thdwork`: try to pop from `taskPQ`; run the kernel for
the popped task, publish its dependency flag, and enqueue successors (rule
R1 after a type-1 task, rule R2 after a type-2 task). A task of any other
type is popped and dropped, as in the source's if/else-if chain. -/
def stepReady (rsqrt : ℚ → ℚ) (c : SchedCfg) (s : SchedState) : SchedState :=
  match s.ready with
  | [] => s
  | t :: rest =>
    if t.type = 1 then
      let qr1 := complete_task1 rsqrt c.m c.n t.row_start t.row_end t.col_start t.col_end s.qr
      let dep1 := setDep s.dep t.i t.j
      let qs := pushSuccessors c.tbl c.TR dep1 t.i t.j rest s.wait
      { ready := qs.1, wait := qs.2, dep := dep1, qr := qr1 }
    else if t.type = 2 then
      let qr1 := complete_task2 c.m c.n t.row_start t.row_end t.col_start t.col_end s.qr
      let dep1 := setDep s.dep t.i t.j
      if t.enq_nxt_t1 ∧ t.j + 1 ≤ c.TC then
        { ready := rest ++ [c.tbl ((t.j + 1) / c.R) (t.j + 1)], wait := s.wait,
          dep := dep1, qr := qr1 }
      else { ready := rest, wait := s.wait, dep := dep1, qr := qr1 }
    else { ready := rest, wait := s.wait, dep := s.dep, qr := s.qr }

/-- Lines 222-235 of `thdwork`: try to pop one task from `wait_queue`; if
its left-neighbor dependency `(i, j-1)` is satisfied move it to `taskPQ`,
else push it back onto `wait_queue`. -/
def stepWait (s : SchedState) : SchedState :=
  match s.wait with
  | [] => s
  | u :: rest =>
    if s.dep u.i (u.j - 1) then { s with wait := rest, ready := s.ready ++ [u] }
    else { s with wait := rest ++ [u] }

/-- The termination predicate checked at lines 237-240:
`dependency.get(total_task_rows - 1, BETA_DIV_ALPHA * (total_task_rows - 1))`. -/
def termFlag (TR R : ℤ) (dep : ℤ → ℤ → Bool) : Bool :=
  dep (TR - 1) (R * (TR - 1))

/-- One full iteration of the `while (1)` worker loop of `thdwork`: the
`taskPQ` branch, then the `wait_queue` branch, then the exit check.  Returns
the new state and whether the worker breaks out of the loop. -/
def workerIter (rsqrt : ℚ → ℚ) (c : SchedCfg) (s : SchedState) :
    SchedState × Bool :=
  let s1 := stepWait (stepReady rsqrt c s)
  (s1, termFlag c.TR c.R s1.dep)

/-- Iterated worker loop (a sequential over-approximation of any number of
loop iterations; used to state reachability of queue invariants). -/
def runSched (rsqrt : ℚ → ℚ) (c : SchedCfg) : ℕ → SchedState → SchedState
  | 0, s => s
  | fuel+1, s => runSched rsqrt c fuel (workerIter rsqrt c s).1

/-- The initial scheduler state built by `dagqrf` (lines 281-296): empty
wait queue, all dependency flags false, and the seed task `(0,0)` pushed
onto `taskPQ`. -/
def initSched (c : SchedCfg) (qr : QRState) : SchedState :=
  { ready := [c.tbl 0 0], wait := [], dep := fun _ _ => false, qr := qr }

/-! ### Concrete scenarios (spec §8) -/

/-- Run the kernel selected by a task's type, with the task's ranges
(lines 193-195 and 211-213 of `thdwork`). -/
def execTask (rsqrt : ℚ → ℚ) (m n : ℕ) (t : Task) (st : QRState) : QRState :=
  if t.type = 1 then
    complete_task1 rsqrt m n t.row_start t.row_end t.col_start t.col_end st
  else complete_task2 m n t.row_start t.row_end t.col_start t.col_end st

/-- The 4×4 identity matrix, flattened row-major. -/
def idMat : ℕ → ℚ :=
  fun idx => if idx = 0 ∨ idx = 5 ∨ idx = 10 ∨ idx = 15 then 1 else 0

/-- Initial state for the §8 scenario-1 run: 4×4 identity matrix, zeroed
reflector arrays (as allocated by `dagqrf`). -/
def idSt : QRState :=
  { mat := idMat, up_array := fun _ => 0, b_array := fun _ => 0,
    upWrites := fun _ => 0 }

/-- The task table of the §8 scenario-1 configuration
(`M = N = 4`, `ALPHA = BETA = 2`, so `TR = TC = 2`, `R = 1`). -/
def idTbl : ℤ → ℤ → Task := getTask 2 1 2 2 4

/-- The state after tasks `(0,0)` (type 1) and `(1,0)` (type 2) of the
scenario-1 run, in the order forced by the scheduler (`(0,0)` is the seed;
`(1,0)` is its only ready successor; `(1,1)` is enqueued only after `(1,0)`
completes). -/
def identityRunMid (rsqrt : ℚ → ℚ) : QRState :=
  execTask rsqrt 4 4 (idTbl 1 0) (execTask rsqrt 4 4 (idTbl 0 0) idSt)

/-- The final state of the scenario-1 run: tasks `(0,0)`, `(1,0)`, `(1,1)`. -/
def identityRun (rsqrt : ℚ → ℚ) : QRState :=
  execTask rsqrt 4 4 (idTbl 1 1) (identityRunMid rsqrt)

/-- Initial state over the 2×2 all-zero matrix. -/
def zeroSt : QRState :=
  { mat := fun _ => 0, up_array := fun _ => 0, b_array := fun _ => 0,
    upWrites := fun _ => 0 }

/-- The complete factorization run for the 2×2 zero matrix with
`ALPHA = BETA = 2`: the grid is 1×1, so the single type-1 task `(0,0)` is
the whole run. -/
def zeroRun (rsqrt : ℚ → ℚ) : QRState :=
  execTask rsqrt 2 2 (getTask 1 1 2 2 2 0 0) zeroSt

/-- Queue well-formedness: every task in `taskPQ` has a nonnegative column
index, and every task in `wait_queue` has column index at least 1. -/
def QueueInv (s : SchedState) : Prop :=
  (∀ t ∈ s.ready, 0 ≤ t.j) ∧ (∀ t ∈ s.wait, 1 ≤ t.j)

/-- A task table assigns the looked-up coordinates to the returned task
(true of the spec-modelled `getTask` by construction). -/
def TblCoords (tbl : ℤ → ℤ → Task) : Prop :=
  ∀ i j, (tbl i j).i = i ∧ (tbl i j).j = j

/-! ### Scan-loop characterization: the source fold equals the spec's
`max` / `Σ` formulas -/

theorem Ico_insert_bot {a b : ℕ} (h : a < b) :
    Finset.Ico a b = insert a (Finset.Ico (a+1) b) := by
  ext x
  simp only [Finset.mem_Ico, Finset.mem_insert]
  omega

theorem fold_max_shift (s : Finset ℕ) (f : ℕ → ℚ) (x b : ℚ) :
    Finset.fold max (max x b) f s = max x (Finset.fold max b f s) := by
  classical
  induction s using Finset.induction_on with
  | empty => simp
  | insert h ih =>
    rw [Finset.fold_insert h, Finset.fold_insert h, ih]
    rw [max_left_comm]

theorem le_fold_max (s : Finset ℕ) (f : ℕ → ℚ) (b : ℚ) :
    b ≤ Finset.fold max b f s := by
  classical
  induction s using Finset.induction_on with
  | empty => simp
  | insert h ih =>
    rw [Finset.fold_insert h]
    exact le_trans ih (le_max_right _ _)

theorem fold_max_eq_init (s : Finset ℕ) (f : ℕ → ℚ) (b : ℚ)
    (h : ∀ x ∈ s, f x ≤ b) : Finset.fold max b f s = b := by
  classical
  induction s using Finset.induction_on with
  | empty => simp
  | insert hx ih =>
    rw [Finset.fold_insert hx, ih (fun y hy => h y (Finset.mem_insert_of_mem hy)),
      max_eq_right (h _ (Finset.mem_insert_self _ _))]

theorem scanStep_eq (mat : ℕ → ℚ) (n p : ℕ) :
    ∀ (fuel k : ℕ) (cl sm1 : ℚ),
      scanStep mat n p k fuel (cl, sm1) =
        ((Finset.Ico k (k + fuel)).fold max cl (fun i => |mat (p * n + i)|),
          sm1 + ∑ i in Finset.Ico k (k + fuel), (mat (p * n + i))^2) := by
  intro fuel
  induction fuel with
  | zero => intro k cl sm1; simp [scanStep]
  | succ f ih =>
    intro k cl sm1
    have hlt : k < k + (f + 1) := by omega
    rw [scanStep, ih (k+1) (max (|mat (p * n + k)|) cl)
      (sm1 + |mat (p * n + k)| * |mat (p * n + k)|)]
    have hins : Finset.Ico k (k + (f+1)) = insert k (Finset.Ico (k+1) (k + (f+1))) :=
      Ico_insert_bot hlt
    have hnotmem : k ∉ Finset.Ico (k+1) (k + (f+1)) := by
      simp [Finset.mem_Ico]
    have harith : k + (f + 1) = (k + 1) + f := by omega
    rw [hins, Finset.fold_insert hnotmem, Finset.sum_insert hnotmem, harith,
      fold_max_shift]
    rw [Prod.mk.injEq]
    refine ⟨rfl, ?_⟩
    rw [abs_mul_abs_self, ← pow_two]
    ring

theorem rowScan_eq (mat : ℕ → ℚ) (n p : ℕ) :
    rowScan mat n p = (specCl mat n p, specSm1 mat n p) := by
  rw [rowScan, scanStep_eq, specCl, specSm1]
  rcases le_or_lt n (p+1) with h | h
  · have h1 : p + 1 + (n - (p+1)) = p + 1 := by omega
    have h2 : Finset.Ico (p+1) n = (∅ : Finset ℕ) := by
      apply Finset.Ico_eq_empty; omega
    have h3 : Finset.Ico (p+1) (p+1) = (∅ : Finset ℕ) := by
      apply Finset.Ico_eq_empty; omega
    rw [h1, h2, h3]
    simp
  · have h1 : p + 1 + (n - (p+1)) = n := by omega
    rw [h1]
    simp

/-! ### Flat-index arithmetic and frame lemmas for the update loops -/

theorem flatIdx_inj {n i p j q : ℕ} (hi : i < n) (hp : p < n)
    (h : j * n + i = q * n + p) : j = q ∧ i = p := by
  have hn : 0 < n := lt_of_le_of_lt (Nat.zero_le _) hi
  have hmod : i = p := by
    have h1 : (j * n + i) % n = i := by
      rw [Nat.mul_add_mod' j n i]
      exact Nat.mod_eq_of_lt hi
    have h2 : (q * n + p) % n = p := by
      rw [Nat.mul_add_mod' q n p]
      exact Nat.mod_eq_of_lt hp
    rw [← h1, h, h2]
  refine ⟨?_, hmod⟩
  subst hmod
  have := Nat.add_right_cancel h
  exact Nat.eq_of_mul_eq_mul_right hn this

theorem innerUpd_apply_ne (n p j : ℕ) (sm2 : ℚ) :
    ∀ (fuel k : ℕ) (mat : ℕ → ℚ) (q : ℕ),
      (∀ i, k ≤ i → i < k + fuel → q ≠ j * n + i) →
      innerUpd n p j sm2 mat k fuel q = mat q := by
  intro fuel
  induction fuel with
  | zero => intro k mat q _; rfl
  | succ f ih =>
    intro k mat q hq
    rw [innerUpd, ih (k+1) _ q (fun i h1 h2 => hq i (by omega) (by omega))]
    exact Function.update_noteq (hq k (le_refl k) (by omega)) _ _

theorem applyRow_apply_ne (up b : ℚ) (mat : ℕ → ℚ) (n p j q : ℕ)
    (hq1 : q ≠ j * n + p) (hq2 : ∀ i, p + 1 ≤ i → i < n → q ≠ j * n + i) :
    applyRow up b mat n p j q = mat q := by
  rw [applyRow]
  by_cases h : smAcc mat n p j (p+1) (n - (p+1)) (mat (j * n + p) * up) = 0
  · rw [if_pos h]
  · rw [if_neg h]
    rw [innerUpd_apply_ne n p j _ _ _ _ q
      (fun i h1 h2 => hq2 i h1 (by omega))]
    exact Function.update_noteq hq1 _ _

theorem colLoop_apply_ne (up b : ℚ) (n p : ℕ) :
    ∀ (fuel j0 : ℕ) (mat : ℕ → ℚ) (q : ℕ),
      (∀ j', j0 ≤ j' → j' < j0 + fuel →
        q ≠ j' * n + p ∧ ∀ i, p + 1 ≤ i → i < n → q ≠ j' * n + i) →
      colLoop up b n p mat j0 fuel q = mat q := by
  intro fuel
  induction fuel with
  | zero => intro j0 mat q _; rfl
  | succ f ih =>
    intro j0 mat q hq
    rw [colLoop, ih (j0+1) _ q (fun j' h1 h2 => hq j' (by omega) (by omega))]
    obtain ⟨h1, h2⟩ := hq j0 (le_refl j0) (by omega)
    exact applyRow_apply_ne up b mat n p j0 q h1 h2

theorem colLoop_diag (up b : ℚ) (n p fuel j0 : ℕ) (mat : ℕ → ℚ)
    (hn : p < n) (hj0 : p + 1 ≤ j0) :
    colLoop up b n p mat j0 fuel (p * n + p) = mat (p * n + p) := by
  apply colLoop_apply_ne
  intro j' hj' _
  constructor
  · intro hcontra
    obtain ⟨hje, _⟩ := flatIdx_inj hn hn hcontra.symm
    omega
  · intro i hi1 hi2 hcontra
    obtain ⟨_, hie⟩ := flatIdx_inj hi2 hn hcontra.symm
    omega

/-! ### Pivot-step characterization lemmas -/

theorem pivotStep_skip (rsqrt : ℚ → ℚ) (n re ce p : ℕ) (st : QRState)
    (h : clS st.mat n p ≤ 0) : pivotStep rsqrt n re ce st p = st := by
  rw [clS] at h
  rw [pivotStep]
  simp only []
  rw [if_pos h]

theorem pivotStep_phase (rsqrt : ℚ → ℚ) (n re ce p : ℕ) (st : QRState)
    (hcl : 0 < clS st.mat n p) (hp : p ≤ re) :
    pivotStep rsqrt n re ce st p =
      reflectPhase (upS rsqrt st.mat n p) (bS rsqrt st.mat n p) n ce p
        { st with mat := Function.update st.mat (p * n + p) (clNewS rsqrt st.mat n p) } := by
  rw [clS] at hcl
  rw [pivotStep]
  simp only []
  rw [if_neg (not_le.mpr hcl), if_neg (by omega : ¬((re : ℤ) - (p : ℤ) < 0))]
  rw [Function.update_same]
  rfl

theorem clS_eq_spec (mat : ℕ → ℚ) (n p : ℕ) : clS mat n p = specCl mat n p := by
  rw [clS, rowScan_eq]

theorem sm1S_eq_spec (mat : ℕ → ℚ) (n p : ℕ) : sm1S mat n p = specSm1 mat n p := by
  rw [sm1S, rowScan_eq]

theorem clNewS_eq_spec (rsqrt : ℚ → ℚ) (mat : ℕ → ℚ) (n p : ℕ) :
    clNewS rsqrt mat n p = specClNew rsqrt mat n p := by
  rw [clNewS, specClNew]
  rw [clS_eq_spec, sm1S_eq_spec]
  rw [show mat (p * n + p) * (1 / specCl mat n p) * (mat (p * n + p) * (1 / specCl mat n p)) +
        specSm1 mat n p * (1 / specCl mat n p) * (1 / specCl mat n p) =
      (mat (p * n + p) * (1 / specCl mat n p))^2 +
        specSm1 mat n p * (1 / specCl mat n p)^2 from by ring]

theorem pivotStep_mat_diag (rsqrt : ℚ → ℚ) (n re ce p : ℕ) (st : QRState)
    (hcl : 0 < clS st.mat n p) (hp : p ≤ re) (hn : p < n) :
    (pivotStep rsqrt n re ce st p).mat (p * n + p) = clNewS rsqrt st.mat n p := by
  rw [pivotStep_phase rsqrt n re ce p st hcl hp, reflectPhase]
  by_cases h : 0 ≤ bS rsqrt st.mat n p
  · rw [if_pos h]
    exact Function.update_same _ _ _
  · rw [if_neg h]
    simp only []
    rw [colLoop_diag _ _ _ _ _ _ _ hn (le_refl (p+1))]
    exact Function.update_same _ _ _

theorem pivotStep_arrays_ne (rsqrt : ℚ → ℚ) (n re ce p : ℕ) (st : QRState)
    (q : ℕ) (hq : q ≠ p) :
    (pivotStep rsqrt n re ce st p).up_array q = st.up_array q ∧
    (pivotStep rsqrt n re ce st p).b_array q = st.b_array q ∧
    (pivotStep rsqrt n re ce st p).upWrites q = st.upWrites q := by
  by_cases h1 : clS st.mat n p ≤ 0
  · rw [pivotStep_skip rsqrt n re ce p st h1]
    exact ⟨rfl, rfl, rfl⟩
  · push_neg at h1
    by_cases h2 : (re : ℤ) - (p : ℤ) < 0
    · rw [clS] at h1
      rw [pivotStep]
      simp only []
      rw [if_neg (not_le.mpr h1), if_pos h2]
      exact ⟨rfl, rfl, rfl⟩
    · have hp : p ≤ re := by omega
      rw [pivotStep_phase rsqrt n re ce p st h1 hp, reflectPhase]
      by_cases hb : 0 ≤ bS rsqrt st.mat n p
      · rw [if_pos hb]
        exact ⟨rfl, rfl, rfl⟩
      · rw [if_neg hb]
        exact ⟨Function.update_noteq hq _ _, Function.update_noteq hq _ _,
          Function.update_noteq hq _ _⟩

theorem pivotStep_upWrites_self (rsqrt : ℚ → ℚ) (n re ce p : ℕ) (st : QRState) :
    (pivotStep rsqrt n re ce st p).upWrites p ≤ st.upWrites p + 1 := by
  by_cases h1 : clS st.mat n p ≤ 0
  · rw [pivotStep_skip rsqrt n re ce p st h1]
    omega
  · push_neg at h1
    by_cases h2 : (re : ℤ) - (p : ℤ) < 0
    · rw [clS] at h1
      rw [pivotStep]
      simp only []
      rw [if_neg (not_le.mpr h1), if_pos h2]
      simp only []
      omega
    · have hp : p ≤ re := by omega
      rw [pivotStep_phase rsqrt n re ce p st h1 hp, reflectPhase]
      by_cases hb : 0 ≤ bS rsqrt st.mat n p
      · rw [if_pos hb]
        exact Nat.le_succ _
      · rw [if_neg hb]
        simp only [Function.update_same]
        omega

theorem pivotStep_b_skip (rsqrt : ℚ → ℚ) (n re ce p : ℕ) (st : QRState)
    (hcl : 0 < clS st.mat n p) (hp : p ≤ re)
    (hb : 0 ≤ bS rsqrt st.mat n p) :
    (pivotStep rsqrt n re ce st p).up_array = st.up_array ∧
    (pivotStep rsqrt n re ce st p).b_array = st.b_array := by
  rw [pivotStep_phase rsqrt n re ce p st hcl hp, reflectPhase, if_pos hb]
  exact ⟨rfl, rfl⟩

/-! ### Zero-reflector no-op lemmas -/

theorem innerUpd_zero (n p j : ℕ) :
    ∀ (fuel k : ℕ) (mat : ℕ → ℚ), innerUpd n p j 0 mat k fuel = mat := by
  intro fuel
  induction fuel with
  | zero => intro k mat; rfl
  | succ f ih =>
    intro k mat
    rw [innerUpd]
    rw [show mat (j * n + k) + 0 * mat (p * n + k) = mat (j * n + k) from by ring]
    rw [Function.update_eq_self, ih]

theorem applyRow_zero (mat : ℕ → ℚ) (n p j : ℕ) : applyRow 0 0 mat n p j = mat := by
  rw [applyRow]
  simp only []
  split
  · rfl
  · rw [mul_zero, innerUpd_zero]
    rw [show mat (j * n + p) + 0 * 0 = mat (j * n + p) from by ring]
    rw [Function.update_eq_self]

theorem colLoop_zero (n p : ℕ) :
    ∀ (fuel j0 : ℕ) (mat : ℕ → ℚ), colLoop 0 0 n p mat j0 fuel = mat := by
  intro fuel
  induction fuel with
  | zero => intro j0 mat; rfl
  | succ f ih =>
    intro j0 mat
    rw [colLoop, applyRow_zero, ih]

theorem t2Loop_zero (n cs ce : ℕ) (up_array b_array : ℕ → ℚ) :
    ∀ (fuel p0 : ℕ) (mat : ℕ → ℚ),
      (∀ q, p0 ≤ q → q < p0 + fuel → up_array q = 0 ∧ b_array q = 0) →
      t2Loop n cs ce up_array b_array mat p0 fuel = mat := by
  intro fuel
  induction fuel with
  | zero => intro p0 mat _; rfl
  | succ f ih =>
    intro p0 mat h
    obtain ⟨hu, hb⟩ := h p0 (le_refl p0) (by omega)
    rw [t2Loop, hu, hb, colLoop_zero, ih (p0+1) _ (fun q h1 h2 => h q (by omega) (by omega))]

theorem complete_task2_zero (m n rs re cs ce : ℕ) (st : QRState)
    (h : ∀ q, normStart rs ≤ q → q < re → st.up_array q = 0 ∧ st.b_array q = 0) :
    complete_task2 m n rs re cs ce st = st := by
  rw [complete_task2]
  rw [t2Loop_zero _ _ _ _ _ _ _ _ (fun q h1 h2 => h q h1 (by omega))]

/-! ### Pivot-loop aggregate lemmas -/

theorem t1Loop_arrays_ne (rsqrt : ℚ → ℚ) (n re ce : ℕ) :
    ∀ (fuel p0 : ℕ) (st : QRState) (q : ℕ), (q < p0 ∨ p0 + fuel ≤ q) →
      (t1Loop rsqrt n re ce st p0 fuel).up_array q = st.up_array q ∧
      (t1Loop rsqrt n re ce st p0 fuel).b_array q = st.b_array q ∧
      (t1Loop rsqrt n re ce st p0 fuel).upWrites q = st.upWrites q := by
  intro fuel
  induction fuel with
  | zero => intro p0 st q _; exact ⟨rfl, rfl, rfl⟩
  | succ f ih =>
    intro p0 st q hq
    rw [t1Loop]
    obtain ⟨h1, h2, h3⟩ := ih (p0+1) (pivotStep rsqrt n re ce st p0) q (by omega)
    obtain ⟨g1, g2, g3⟩ := pivotStep_arrays_ne rsqrt n re ce p0 st q (by omega)
    exact ⟨h1.trans g1, h2.trans g2, h3.trans g3⟩

theorem t1Loop_upWrites_le (rsqrt : ℚ → ℚ) (n re ce : ℕ) :
    ∀ (fuel p0 : ℕ) (st : QRState) (q : ℕ),
      (t1Loop rsqrt n re ce st p0 fuel).upWrites q ≤ st.upWrites q + 1 := by
  intro fuel
  induction fuel with
  | zero => intro p0 st q; exact Nat.le_succ _
  | succ f ih =>
    intro p0 st q
    rw [t1Loop]
    by_cases hq : q = p0
    · subst hq
      obtain ⟨_, _, h3⟩ :=
        t1Loop_arrays_ne rsqrt n re ce f (q+1) (pivotStep rsqrt n re ce st q) q
          (Or.inl (by omega))
      rw [h3]
      exact pivotStep_upWrites_self rsqrt n re ce q st
    · obtain ⟨_, _, g3⟩ := pivotStep_arrays_ne rsqrt n re ce p0 st q hq
      exact le_trans (ih (p0+1) _ q) (by omega)

theorem complete_task1_arrays_ne (rsqrt : ℚ → ℚ)
    (m n rs re cs ce : ℕ) (st : QRState) (q : ℕ)
    (hq : q < normStart rs ∨ re ≤ q) :
    (complete_task1 rsqrt m n rs re cs ce st).up_array q = st.up_array q ∧
    (complete_task1 rsqrt m n rs re cs ce st).b_array q = st.b_array q ∧
    (complete_task1 rsqrt m n rs re cs ce st).upWrites q = st.upWrites q := by
  rw [complete_task1]
  by_cases h : re ≤ normStart rs
  · rw [show re - normStart rs = 0 from by omega]
    exact ⟨rfl, rfl, rfl⟩
  · exact t1Loop_arrays_ne rsqrt n re ce _ _ st q (by omega)

theorem complete_task1_upWrites_le (rsqrt : ℚ → ℚ)
    (m n rs re cs ce : ℕ) (st : QRState) (q : ℕ) :
    (complete_task1 rsqrt m n rs re cs ce st).upWrites q ≤ st.upWrites q + 1 := by
  rw [complete_task1]
  exact t1Loop_upWrites_le rsqrt n re ce _ _ st q

theorem complete_task2_arrays (m n rs re cs ce : ℕ) (st : QRState) :
    (complete_task2 m n rs re cs ce st).up_array = st.up_array ∧
    (complete_task2 m n rs re cs ce st).b_array = st.b_array ∧
    (complete_task2 m n rs re cs ce st).upWrites = st.upWrites :=
  ⟨rfl, rfl, rfl⟩

/-! ### Claim theorems -/

/-- C1: for every pivot row `p` processed by the panel-factor kernel with
`cl > 0`, the source's loop-computed `cl` and `sm1` equal the spec's
`max(|M[p,p]|, max_k |M[p,k]|)` and `Σ_k M[p,k]²`; the kernel writes
`M[p,p] ← cl·√(d² + sm1·clinv²)` (negated when the original `M[p,p] > 0`)
exactly as the spec's steps 3-4 prescribe, and the computed `up` and `b`
satisfy `up = M[p,p]_old - M[p,p]_new` and `b = up · M[p,p]_new`. -/
theorem C1_pivot_formulas (rsqrt : ℚ → ℚ) (st : QRState) (n re ce p : ℕ)
    (hn : p < n) (hp : p < re) (hcl : 0 < clS st.mat n p) :
    clS st.mat n p = specCl st.mat n p ∧
    sm1S st.mat n p = specSm1 st.mat n p ∧
    (pivotStep rsqrt n re ce st p).mat (p * n + p) = specClNew rsqrt st.mat n p ∧
    upS rsqrt st.mat n p = st.mat (p * n + p) - specClNew rsqrt st.mat n p ∧
    bS rsqrt st.mat n p = upS rsqrt st.mat n p * specClNew rsqrt st.mat n p := by
  refine ⟨clS_eq_spec _ _ _, sm1S_eq_spec _ _ _, ?_, ?_, ?_⟩
  · rw [pivotStep_mat_diag rsqrt n re ce p st hcl (le_of_lt hp) hn, clNewS_eq_spec]
  · rw [upS, clNewS_eq_spec]
  · rw [bS, clNewS_eq_spec]

theorem C1_pivot_formulas_witness :
    (0 : ℕ) < 1 ∧ 0 < clS (fun _ => (1 : ℚ)) 1 0 ∧
    (pivotStep (fun q => q) 1 1 1
        ⟨fun _ => (1 : ℚ), fun _ => 0, fun _ => 0, fun _ => 0⟩ 0).mat (0 * 1 + 0) =
      specClNew (fun q => q) (fun _ => (1 : ℚ)) 1 0 :=
  ⟨by decide, by decide,
    (C1_pivot_formulas (fun q => q) ⟨fun _ => (1 : ℚ), fun _ => 0, fun _ => 0, fun _ => 0⟩
      1 1 1 0 (by decide) (by decide) (by decide)).2.2.1⟩

/-- C4: a numerically degenerate pivot is skipped without error: with
`cl ≤ 0` the pivot step leaves the whole state (row, reflector slots)
unchanged; when the pivot is skipped (`b ≥ 0` or `cl ≤ 0`) the reflector
slots at `p` are not written; a panel-update column loop applying the zero
reflector pair `(up, b) = (0, 0)` leaves the matrix unchanged; and when the
accumulated `sm` is `0` the row update early-exits leaving the row as-is. -/
theorem C4_degenerate_pivot (rsqrt : ℚ → ℚ) (st st2 : QRState)
    (n re ce p fuel j0 : ℕ) (mat2 : ℕ → ℚ) (up0 b0 : ℚ)
    (hpre : p ≤ re)
    (hcl : clS st.mat n p ≤ 0)
    (hskip : 0 ≤ bS rsqrt st2.mat n p ∨ clS st2.mat n p ≤ 0)
    (hsm : smAcc mat2 n p j0 (p+1) (n - (p+1)) (mat2 (j0 * n + p) * up0) = 0) :
    pivotStep rsqrt n re ce st p = st ∧
    (pivotStep rsqrt n re ce st2 p).up_array p = st2.up_array p ∧
    (pivotStep rsqrt n re ce st2 p).b_array p = st2.b_array p ∧
    colLoop 0 0 n p mat2 j0 fuel = mat2 ∧
    applyRow up0 b0 mat2 n p j0 = mat2 := by
  have harr : (pivotStep rsqrt n re ce st2 p).up_array p = st2.up_array p ∧
      (pivotStep rsqrt n re ce st2 p).b_array p = st2.b_array p := by
    rcases hskip with hb | hc
    · by_cases hc2 : clS st2.mat n p ≤ 0
      · rw [pivotStep_skip rsqrt n re ce p st2 hc2]
        exact ⟨rfl, rfl⟩
      · push_neg at hc2
        obtain ⟨h1, h2⟩ := pivotStep_b_skip rsqrt n re ce p st2 hc2 hpre hb
        exact ⟨congrFun h1 p, congrFun h2 p⟩
    · rw [pivotStep_skip rsqrt n re ce p st2 hc]
      exact ⟨rfl, rfl⟩
  refine ⟨pivotStep_skip rsqrt n re ce p st hcl, harr.1, harr.2, colLoop_zero n p fuel j0 mat2, ?_⟩
  rw [applyRow]
  simp only []
  rw [if_pos hsm]

theorem C4_degenerate_pivot_witness :
    ((0 : ℕ) ≤ 1 ∧ clS (fun _ => (0 : ℚ)) 1 0 ≤ 0 ∧
      smAcc (fun _ => (0 : ℚ)) 1 0 1 (0 + 1) (1 - (0 + 1))
        ((fun _ => (0 : ℚ)) (1 * 1 + 0) * 0) = 0) ∧
    pivotStep (fun q => q) 1 1 1 zeroSt 0 = zeroSt ∧
    applyRow 0 0 (fun _ => (0 : ℚ)) 1 0 1 = (fun _ => (0 : ℚ)) := by
  have h := C4_degenerate_pivot (fun q => q) zeroSt zeroSt 1 1 1 0 1 1
    (fun _ => (0 : ℚ)) 0 0 (by decide) (by decide) (Or.inr (by decide))
    (by norm_num [smAcc])
  exact ⟨⟨by decide, by decide, by norm_num [smAcc]⟩, h.1, h.2.2.2.2⟩

theorem t2Loop_colstart_one (n ce : ℕ) (up_array b_array : ℕ → ℚ) :
    ∀ (fuel p0 : ℕ) (mat : ℕ → ℚ),
      t2Loop n 1 ce up_array b_array mat p0 fuel =
        t2Loop n 0 ce up_array b_array mat p0 fuel := by
  intro fuel
  induction fuel with
  | zero => intro p0 mat; rfl
  | succ f ih =>
    intro p0 mat
    rw [t2Loop, t2Loop]
    simp only [normStart]
    norm_num
    exact ih (p0+1) _

/-- C8: both kernels treat a start index of `1` as `0`: the panel-factor
kernel called with `row_start = 1` behaves as with `row_start = 0`, and the
panel-update kernel does so for both `row_start = 1` and `col_start = 1`;
any other start value is used unchanged as the first iterated index. -/
theorem C8_sentinel (rsqrt : ℚ → ℚ) (st : QRState) (m n re cs ce rs : ℕ)
    (hrs : rs ≠ 1) :
    complete_task1 rsqrt m n 1 re cs ce st = complete_task1 rsqrt m n 0 re cs ce st ∧
    complete_task2 m n 1 re cs ce st = complete_task2 m n 0 re cs ce st ∧
    complete_task2 m n rs re 1 ce st = complete_task2 m n rs re 0 ce st ∧
    normStart 1 = 0 ∧ normStart rs = rs := by
  refine ⟨?_, ?_, ?_, rfl, ?_⟩
  · simp [complete_task1, normStart]
  · simp [complete_task2, normStart]
  · rw [complete_task2, complete_task2]
    rw [t2Loop_colstart_one]
  · rw [normStart, if_neg hrs]

theorem C8_sentinel_witness :
    (0 : ℕ) ≠ 1 ∧ normStart 1 = 0 ∧ normStart 0 = 0 :=
  ⟨by decide,
    (C8_sentinel (fun q => q) zeroSt 2 2 2 0 2 0 (by decide)).2.2.2.1,
    (C8_sentinel (fun q => q) zeroSt 2 2 2 0 2 0 (by decide)).2.2.2.2⟩

/-! ### Sign analysis of the new diagonal value -/

theorem abs_le_specCl (mat : ℕ → ℚ) (n p : ℕ) :
    |mat (p * n + p)| ≤ specCl mat n p :=
  le_fold_max _ _ _

theorem specSm1_nonneg (mat : ℕ → ℚ) (n p : ℕ) : 0 ≤ specSm1 mat n p :=
  Finset.sum_nonneg (fun _ _ => sq_nonneg _)

theorem specCl_eq_abs_of_sm1_zero (mat : ℕ → ℚ) (n p : ℕ)
    (h : specSm1 mat n p = 0) : specCl mat n p = |mat (p * n + p)| := by
  apply fold_max_eq_init
  intro k hk
  have hz : mat (p * n + k) = 0 := by
    have hsq := (Finset.sum_eq_zero_iff_of_nonneg
      (fun i _ => sq_nonneg (mat (p * n + i)))).mp h k hk
    exact pow_eq_zero_iff two_ne_zero |>.mp hsq
  rw [hz, abs_zero]
  exact abs_nonneg _

theorem clNewS_ne_diag (rsqrt : ℚ → ℚ) (mat : ℕ → ℚ) (n p : ℕ)
    (hsq : ∀ x : ℚ, 0 < x → 0 < rsqrt x) (hcl : 0 < clS mat n p) :
    clNewS rsqrt mat n p ≠ mat (p * n + p) := by
  rw [clNewS_eq_spec]
  rw [clS_eq_spec] at hcl
  rw [specClNew]
  have hclinv : 0 < 1 / specCl mat n p := by positivity
  have hs1 : 0 ≤ specSm1 mat n p := specSm1_nonneg mat n p
  rcases lt_trichotomy 0 (mat (p * n + p)) with hap | haz | han
  · rw [if_pos hap]
    have hd : 0 < mat (p * n + p) * (1 / specCl mat n p) := mul_pos hap hclinv
    have hsm : 0 < (mat (p * n + p) * (1 / specCl mat n p))^2 +
        specSm1 mat n p * (1 / specCl mat n p)^2 :=
      add_pos_of_pos_of_nonneg (pow_pos hd 2) (mul_nonneg hs1 (sq_nonneg _))
    have hpos : 0 < specCl mat n p * rsqrt _ := mul_pos hcl (hsq _ hsm)
    intro hcontra
    linarith
  · rw [if_neg (by rw [← haz]; exact lt_irrefl 0)]
    have hs1pos : 0 < specSm1 mat n p := by
      rcases lt_or_eq_of_le hs1 with h | h
      · exact h
      · exfalso
        rw [specCl_eq_abs_of_sm1_zero mat n p h.symm, ← haz, abs_zero] at hcl
        exact lt_irrefl 0 hcl
    have hsm : 0 < (mat (p * n + p) * (1 / specCl mat n p))^2 +
        specSm1 mat n p * (1 / specCl mat n p)^2 :=
      add_pos_of_nonneg_of_pos (sq_nonneg _) (mul_pos hs1pos (pow_pos hclinv 2))
    have hpos : 0 < specCl mat n p * rsqrt _ := mul_pos hcl (hsq _ hsm)
    intro hcontra
    rw [hcontra] at hpos
    exact absurd hpos (not_lt.mpr (le_of_eq haz.symm))
  · rw [if_neg (not_lt.mpr (le_of_lt han))]
    have hd : mat (p * n + p) * (1 / specCl mat n p) ≠ 0 :=
      ne_of_lt (mul_neg_of_neg_of_pos han hclinv)
    have hsm : 0 < (mat (p * n + p) * (1 / specCl mat n p))^2 +
        specSm1 mat n p * (1 / specCl mat n p)^2 :=
      add_pos_of_pos_of_nonneg (pow_two_pos_of_ne_zero hd)
        (mul_nonneg hs1 (sq_nonneg _))
    have hpos : 0 < specCl mat n p * rsqrt _ := mul_pos hcl (hsq _ hsm)
    intro hcontra
    linarith

/-- C10: for a pivot with `cl > 0`, the kernel overwrites the diagonal
entry `M[p,p]` with the new value before the `b ≥ 0` test: the pivot step
factors into the diagonal write followed by the `b`-guarded reflector
phase; when `b ≥ 0` that phase is the identity (only the reflector store
and the reflector application are skipped); consequently the diagonal has
changed, so a `b`-degenerate pivot does not leave its matrix row
unchanged. -/
theorem C10_b_degenerate (rsqrt : ℚ → ℚ) (st st2 : QRState)
    (n re ce p : ℕ) (up0 b0 : ℚ)
    (hsq : ∀ x : ℚ, 0 < x → 0 < rsqrt x)
    (hn : p < n) (hp : p ≤ re) (hcl : 0 < clS st.mat n p) (hb0 : 0 ≤ b0) :
    pivotStep rsqrt n re ce st p =
      reflectPhase (upS rsqrt st.mat n p) (bS rsqrt st.mat n p) n ce p
        { st with mat := Function.update st.mat (p * n + p) (clNewS rsqrt st.mat n p) } ∧
    reflectPhase up0 b0 n ce p st2 = st2 ∧
    (pivotStep rsqrt n re ce st p).mat (p * n + p) ≠ st.mat (p * n + p) := by
  refine ⟨pivotStep_phase rsqrt n re ce p st hcl hp, ?_, ?_⟩
  · rw [reflectPhase, if_pos hb0]
  · rw [pivotStep_mat_diag rsqrt n re ce p st hcl hp hn]
    exact clNewS_ne_diag rsqrt st.mat n p hsq hcl

theorem C10_b_degenerate_witness :
    ((0 : ℕ) < 1 ∧ 0 < clS (fun _ => (1 : ℚ)) 1 0 ∧ (0 : ℚ) ≤ 0) ∧
    (pivotStep (fun q => q) 1 1 1
        ⟨fun _ => (1 : ℚ), fun _ => 0, fun _ => 0, fun _ => 0⟩ 0).mat (0 * 1 + 0) ≠
      (fun _ => (1 : ℚ)) (0 * 1 + 0) :=
  ⟨⟨by decide, by decide, by decide⟩,
    (C10_b_degenerate (fun q => q) ⟨fun _ => (1 : ℚ), fun _ => 0, fun _ => 0, fun _ => 0⟩
      zeroSt 1 1 1 0 0 0 (fun _ hx => hx) (by decide) (by decide) (by decide)
      (by decide)).2.2⟩

/-! ### Pivot step on a diagonal-only row (used by the §8 scenario runs) -/

theorem scanStep_zero_tail (mat : ℕ → ℚ) (n p : ℕ) :
    ∀ (fuel k : ℕ) (cl sm1 : ℚ), 0 ≤ cl →
      (∀ t, k ≤ t → t < k + fuel → mat (p * n + t) = 0) →
      scanStep mat n p k fuel (cl, sm1) = (cl, sm1) := by
  intro fuel
  induction fuel with
  | zero => intro k cl sm1 _ _; rfl
  | succ f ih =>
    intro k cl sm1 hcl h
    rw [scanStep]
    simp only [h k (le_refl k) (by omega), abs_zero, zero_mul, add_zero,
      max_eq_right hcl]
    exact ih (k+1) cl sm1 hcl (fun t h1 h2 => h t (by omega) (by omega))

theorem rowScan_unit (mat : ℕ → ℚ) (n p : ℕ)
    (h : ∀ t, p + 1 ≤ t → t < n → mat (p * n + t) = 0) :
    rowScan mat n p = (|mat (p * n + p)|, 0) := by
  rw [rowScan]
  exact scanStep_zero_tail mat n p _ _ _ _ (abs_nonneg _)
    (fun t h1 h2 => h t h1 (by omega))

theorem smAcc_zero_tail (mat : ℕ → ℚ) (n p j : ℕ) :
    ∀ (fuel k : ℕ) (sm : ℚ),
      (∀ t, k ≤ t → t < k + fuel → mat (p * n + t) = 0) →
      smAcc mat n p j k fuel sm = sm := by
  intro fuel
  induction fuel with
  | zero => intro k sm _; rfl
  | succ f ih =>
    intro k sm h
    rw [smAcc]
    rw [h k (le_refl k) (by omega), mul_zero, add_zero]
    exact ih (k+1) sm (fun t h1 h2 => h t (by omega) (by omega))

theorem applyRow_noop (up b : ℚ) (mat : ℕ → ℚ) (n p j : ℕ)
    (hjp : mat (j * n + p) = 0)
    (htail : ∀ t, p + 1 ≤ t → t < n → mat (p * n + t) = 0) :
    applyRow up b mat n p j = mat := by
  rw [applyRow]
  simp only []
  rw [if_pos]
  rw [smAcc_zero_tail mat n p j _ _ _ (fun t h1 h2 => htail t h1 (by omega))]
  rw [hjp, zero_mul]

theorem colLoop_noop (up b : ℚ) (n p : ℕ) :
    ∀ (fuel j0 : ℕ) (mat : ℕ → ℚ),
      (∀ j', j0 ≤ j' → j' < j0 + fuel → mat (j' * n + p) = 0) →
      (∀ t, p + 1 ≤ t → t < n → mat (p * n + t) = 0) →
      colLoop up b n p mat j0 fuel = mat := by
  intro fuel
  induction fuel with
  | zero => intro j0 mat _ _; rfl
  | succ f ih =>
    intro j0 mat hcol htail
    rw [colLoop, applyRow_noop up b mat n p j0 (hcol j0 (le_refl j0) (by omega)) htail]
    exact ih (j0+1) mat (fun j' h1 h2 => hcol j' (by omega) (by omega)) htail

theorem clNewS_unit (rsqrt : ℚ → ℚ) (mat : ℕ → ℚ) (n p : ℕ)
    (hr1 : rsqrt 1 = 1) (ha : 0 < mat (p * n + p))
    (htail : ∀ t, p + 1 ≤ t → t < n → mat (p * n + t) = 0) :
    clNewS rsqrt mat n p = -(mat (p * n + p)) := by
  rw [clNewS, clS, sm1S, rowScan_unit mat n p htail]
  simp only []
  rw [abs_of_pos ha]
  rw [show mat (p * n + p) * (1 / mat (p * n + p)) *
      (mat (p * n + p) * (1 / mat (p * n + p))) +
      0 * (1 / mat (p * n + p)) * (1 / mat (p * n + p)) =
      (mat (p * n + p) / mat (p * n + p)) * (mat (p * n + p) / mat (p * n + p)) from by
    ring]
  rw [div_self (ne_of_gt ha), one_mul, hr1, mul_one, if_pos ha]

theorem pivotStep_unit (rsqrt : ℚ → ℚ) (n re ce p : ℕ) (st : QRState)
    (hr1 : rsqrt 1 = 1) (hn : p < n) (hp : p ≤ re)
    (ha : 0 < st.mat (p * n + p))
    (htail : ∀ t, p + 1 ≤ t → t < n → st.mat (p * n + t) = 0)
    (hcol : ∀ j', p + 1 ≤ j' → j' < ce → st.mat (j' * n + p) = 0) :
    pivotStep rsqrt n re ce st p =
      { mat := Function.update st.mat (p * n + p) (-(st.mat (p * n + p))),
        up_array := Function.update st.up_array p (2 * st.mat (p * n + p)),
        b_array := Function.update st.b_array p
          (-(1 / (2 * (st.mat (p * n + p) * st.mat (p * n + p))))),
        upWrites := Function.update st.upWrites p (st.upWrites p + 1) } := by
  have hclS : clS st.mat n p = st.mat (p * n + p) := by
    rw [clS, rowScan_unit st.mat n p htail]
    exact abs_of_pos ha
  have hclpos : 0 < clS st.mat n p := by rw [hclS]; exact ha
  have hclnew : clNewS rsqrt st.mat n p = -(st.mat (p * n + p)) :=
    clNewS_unit rsqrt st.mat n p hr1 ha htail
  have hup : upS rsqrt st.mat n p = 2 * st.mat (p * n + p) := by
    rw [upS, hclnew]; ring
  have hb : bS rsqrt st.mat n p = -(2 * (st.mat (p * n + p) * st.mat (p * n + p))) := by
    rw [bS, hup, hclnew]; ring
  have hbneg : ¬ (0 ≤ bS rsqrt st.mat n p) := by
    rw [hb]
    push_neg
    have : 0 < st.mat (p * n + p) * st.mat (p * n + p) := mul_pos ha ha
    linarith
  rw [pivotStep_phase rsqrt n re ce p st hclpos hp, reflectPhase, if_neg hbneg]
  simp only []
  have hb1 : 1 / bS rsqrt st.mat n p =
      -(1 / (2 * (st.mat (p * n + p) * st.mat (p * n + p)))) := by
    rw [hb, one_div_neg_eq_neg_one_div]
  have hmatcol : colLoop (upS rsqrt st.mat n p) (1 / bS rsqrt st.mat n p) n p
      (Function.update st.mat (p * n + p) (clNewS rsqrt st.mat n p))
      (p+1) (ce - (p+1)) =
      Function.update st.mat (p * n + p) (clNewS rsqrt st.mat n p) := by
    apply colLoop_noop
    · intro j' h1 h2
      rw [Function.update_noteq]
      · exact hcol j' h1 (by omega)
      · intro hcontra
        obtain ⟨hje, _⟩ := flatIdx_inj hn hn hcontra
        omega
    · intro t h1 h2
      rw [Function.update_noteq]
      · exact htail t h1 h2
      · intro hcontra
        obtain ⟨_, hte⟩ := flatIdx_inj h2 hn hcontra
        omega
  rw [hmatcol, hclnew, hup, hb1]

/-! ### The §8 scenario-1 run on the 4×4 identity matrix -/

theorem pivot0_id (rsqrt : ℚ → ℚ) (hr1 : rsqrt 1 = 1) :
    pivotStep rsqrt 4 2 2 idSt 0 =
      { mat := Function.update idMat 0 (-1),
        up_array := Function.update (fun _ => 0) 0 2,
        b_array := Function.update (fun _ => 0) 0 (-(1/2)),
        upWrites := Function.update (fun _ => 0) 0 1 } := by
  rw [pivotStep_unit rsqrt 4 2 2 0 idSt hr1 (by norm_num) (by norm_num)
    (by norm_num [idSt, idMat])
    (by intro t h1 h2; interval_cases t <;> norm_num [idSt, idMat])
    (by intro j h1 h2; interval_cases j <;> norm_num [idSt, idMat])]
  congr 1 <;> funext x <;>
    simp only [idSt, Function.update_apply, idMat] <;> norm_num

theorem pivot1_id (rsqrt : ℚ → ℚ) (hr1 : rsqrt 1 = 1) :
    pivotStep rsqrt 4 2 2
      { mat := Function.update idMat 0 (-1),
        up_array := Function.update (fun _ => 0) 0 2,
        b_array := Function.update (fun _ => 0) 0 (-(1/2)),
        upWrites := Function.update (fun _ => 0) 0 1 } 1 =
      { mat := Function.update (Function.update idMat 0 (-1)) 5 (-1),
        up_array := Function.update (Function.update (fun _ => 0) 0 2) 1 2,
        b_array := Function.update (Function.update (fun _ => 0) 0 (-(1/2))) 1 (-(1/2)),
        upWrites := Function.update (Function.update (fun _ => 0) 0 1) 1 1 } := by
  rw [pivotStep_unit rsqrt 4 2 2 1 _ hr1 (by norm_num) (by norm_num)
    (by norm_num [Function.update_apply, idMat])
    (by intro t h1 h2; interval_cases t <;> norm_num [Function.update_apply, idMat])
    (by intro j h1 h2; omega)]
  congr 1 <;> funext x <;>
    simp only [Function.update_apply, idMat] <;> norm_num

theorem pivot2_id (rsqrt : ℚ → ℚ) (hr1 : rsqrt 1 = 1) :
    pivotStep rsqrt 4 4 4
      { mat := Function.update (Function.update idMat 0 (-1)) 5 (-1),
        up_array := Function.update (Function.update (fun _ => 0) 0 2) 1 2,
        b_array := Function.update (Function.update (fun _ => 0) 0 (-(1/2))) 1 (-(1/2)),
        upWrites := Function.update (Function.update (fun _ => 0) 0 1) 1 1 } 2 =
      { mat := Function.update (Function.update (Function.update idMat 0 (-1)) 5 (-1)) 10 (-1),
        up_array := Function.update (Function.update (Function.update (fun _ => 0) 0 2) 1 2) 2 2,
        b_array := Function.update
          (Function.update (Function.update (fun _ => 0) 0 (-(1/2))) 1 (-(1/2))) 2 (-(1/2)),
        upWrites := Function.update
          (Function.update (Function.update (fun _ => 0) 0 1) 1 1) 2 1 } := by
  rw [pivotStep_unit rsqrt 4 4 4 2 _ hr1 (by norm_num) (by norm_num)
    (by norm_num [Function.update_apply, idMat])
    (by intro t h1 h2; interval_cases t <;> norm_num [Function.update_apply, idMat])
    (by intro j h1 h2; interval_cases j <;> norm_num [Function.update_apply, idMat])]
  congr 1 <;> funext x <;>
    simp only [Function.update_apply, idMat] <;> norm_num

theorem pivot3_id (rsqrt : ℚ → ℚ) (hr1 : rsqrt 1 = 1) :
    pivotStep rsqrt 4 4 4
      { mat := Function.update (Function.update (Function.update idMat 0 (-1)) 5 (-1)) 10 (-1),
        up_array := Function.update (Function.update (Function.update (fun _ => 0) 0 2) 1 2) 2 2,
        b_array := Function.update
          (Function.update (Function.update (fun _ => 0) 0 (-(1/2))) 1 (-(1/2))) 2 (-(1/2)),
        upWrites := Function.update
          (Function.update (Function.update (fun _ => 0) 0 1) 1 1) 2 1 } 3 =
      { mat := Function.update (Function.update (Function.update
          (Function.update idMat 0 (-1)) 5 (-1)) 10 (-1)) 15 (-1),
        up_array := Function.update (Function.update (Function.update
          (Function.update (fun _ => 0) 0 2) 1 2) 2 2) 3 2,
        b_array := Function.update (Function.update (Function.update
          (Function.update (fun _ => 0) 0 (-(1/2))) 1 (-(1/2))) 2 (-(1/2))) 3 (-(1/2)),
        upWrites := Function.update (Function.update (Function.update
          (Function.update (fun _ => 0) 0 1) 1 1) 2 1) 3 1 } := by
  rw [pivotStep_unit rsqrt 4 4 4 3 _ hr1 (by norm_num) (by norm_num)
    (by norm_num [Function.update_apply, idMat])
    (by intro t h1 h2; omega)
    (by intro j h1 h2; omega)]
  congr 1 <;> funext x <;>
    simp only [Function.update_apply, idMat] <;> norm_num

theorem identityRunMid_eq (rsqrt : ℚ → ℚ) (hr1 : rsqrt 1 = 1) :
    identityRunMid rsqrt =
      { mat := Function.update (Function.update idMat 0 (-1)) 5 (-1),
        up_array := Function.update (Function.update (fun _ => 0) 0 2) 1 2,
        b_array := Function.update (Function.update (fun _ => 0) 0 (-(1/2))) 1 (-(1/2)),
        upWrites := Function.update (Function.update (fun _ => 0) 0 1) 1 1 } := by
  rw [show identityRunMid rsqrt =
      complete_task2 4 4 2 4 0 2
        (pivotStep rsqrt 4 2 2 (pivotStep rsqrt 4 2 2 idSt 0) 1) from rfl]
  rw [pivot0_id rsqrt hr1, pivot1_id rsqrt hr1]
  apply complete_task2_zero
  intro q h1 h2
  rw [normStart] at h1
  norm_num at h1
  interval_cases q <;> norm_num [Function.update_apply]

theorem identityRun_eq (rsqrt : ℚ → ℚ) (hr1 : rsqrt 1 = 1) :
    identityRun rsqrt =
      { mat := Function.update (Function.update (Function.update
          (Function.update idMat 0 (-1)) 5 (-1)) 10 (-1)) 15 (-1),
        up_array := Function.update (Function.update (Function.update
          (Function.update (fun _ => 0) 0 2) 1 2) 2 2) 3 2,
        b_array := Function.update (Function.update (Function.update
          (Function.update (fun _ => 0) 0 (-(1/2))) 1 (-(1/2))) 2 (-(1/2))) 3 (-(1/2)),
        upWrites := Function.update (Function.update (Function.update
          (Function.update (fun _ => 0) 0 1) 1 1) 2 1) 3 1 } := by
  rw [show identityRun rsqrt = complete_task1 rsqrt 4 4 2 4 2 4 (identityRunMid rsqrt)
    from rfl]
  rw [identityRunMid_eq rsqrt hr1]
  rw [show complete_task1 rsqrt 4 4 2 4 2 4
      { mat := Function.update (Function.update idMat 0 (-1)) 5 (-1),
        up_array := Function.update (Function.update (fun _ => 0) 0 2) 1 2,
        b_array := Function.update (Function.update (fun _ => 0) 0 (-(1/2))) 1 (-(1/2)),
        upWrites := Function.update (Function.update (fun _ => 0) 0 1) 1 1 } =
      pivotStep rsqrt 4 4 4 (pivotStep rsqrt 4 4 4
        { mat := Function.update (Function.update idMat 0 (-1)) 5 (-1),
          up_array := Function.update (Function.update (fun _ => 0) 0 2) 1 2,
          b_array := Function.update (Function.update (fun _ => 0) 0 (-(1/2))) 1 (-(1/2)),
          upWrites := Function.update (Function.update (fun _ => 0) 0 1) 1 1 } 2) 3
    from rfl]
  rw [pivot2_id rsqrt hr1, pivot3_id rsqrt hr1]

/-- C7 counterexample: running the factorization task sequence on the 4×4
identity matrix (spec §8 scenario 1, `ALPHA = BETA = 2`) leaves
`up_array[0] = 2`, not `0`: the claim's conjunct "all reflector slots
`up_array[r]` equal to zero" is false (each unit pivot row stores the
reflector `up = 2` before its column loop finds nothing to change). -/
theorem C7_identity_counterexample :
    (identityRun (fun q => q)).up_array 0 = 2 ∧
    ¬ (identityRun (fun q => q)).up_array 0 = 0 := by
  rw [identityRun_eq (fun q => q) rfl]
  norm_num [Function.update_apply]

/-- C7 (amended): for the 4×4 identity input with `ALPHA = BETA = 2`, the
factorization leaves every diagonal entry equal to `-1` (absolute value 1,
sign-flipped), every off-diagonal entry exactly `0`, and every reflector
slot `up_array[r]` equal to `2` (not zero). -/
theorem C7_identity_amended (rsqrt : ℚ → ℚ) (hr1 : rsqrt 1 = 1) :
    ((identityRun rsqrt).mat 0 = -1 ∧ (identityRun rsqrt).mat 5 = -1 ∧
      (identityRun rsqrt).mat 10 = -1 ∧ (identityRun rsqrt).mat 15 = -1) ∧
    ((identityRun rsqrt).mat 1 = 0 ∧ (identityRun rsqrt).mat 2 = 0 ∧
      (identityRun rsqrt).mat 3 = 0 ∧ (identityRun rsqrt).mat 4 = 0 ∧
      (identityRun rsqrt).mat 6 = 0 ∧ (identityRun rsqrt).mat 7 = 0 ∧
      (identityRun rsqrt).mat 8 = 0 ∧ (identityRun rsqrt).mat 9 = 0 ∧
      (identityRun rsqrt).mat 11 = 0 ∧ (identityRun rsqrt).mat 12 = 0 ∧
      (identityRun rsqrt).mat 13 = 0 ∧ (identityRun rsqrt).mat 14 = 0) ∧
    ((identityRun rsqrt).up_array 0 = 2 ∧ (identityRun rsqrt).up_array 1 = 2 ∧
      (identityRun rsqrt).up_array 2 = 2 ∧ (identityRun rsqrt).up_array 3 = 2) := by
  rw [identityRun_eq rsqrt hr1]
  norm_num [Function.update_apply, idMat]

theorem C7_identity_amended_witness :
    (fun (q : ℚ) => q) 1 = 1 ∧
    (((identityRun (fun q => q)).mat 0 = -1 ∧ (identityRun (fun q => q)).mat 5 = -1 ∧
      (identityRun (fun q => q)).mat 10 = -1 ∧ (identityRun (fun q => q)).mat 15 = -1) ∧
    ((identityRun (fun q => q)).mat 1 = 0 ∧ (identityRun (fun q => q)).mat 2 = 0 ∧
      (identityRun (fun q => q)).mat 3 = 0 ∧ (identityRun (fun q => q)).mat 4 = 0 ∧
      (identityRun (fun q => q)).mat 6 = 0 ∧ (identityRun (fun q => q)).mat 7 = 0 ∧
      (identityRun (fun q => q)).mat 8 = 0 ∧ (identityRun (fun q => q)).mat 9 = 0 ∧
      (identityRun (fun q => q)).mat 11 = 0 ∧ (identityRun (fun q => q)).mat 12 = 0 ∧
      (identityRun (fun q => q)).mat 13 = 0 ∧ (identityRun (fun q => q)).mat 14 = 0) ∧
    ((identityRun (fun q => q)).up_array 0 = 2 ∧ (identityRun (fun q => q)).up_array 1 = 2 ∧
      (identityRun (fun q => q)).up_array 2 = 2 ∧ (identityRun (fun q => q)).up_array 3 = 2)) :=
  ⟨rfl, C7_identity_amended (fun q => q) rfl⟩

/-- C5 counterexample: the reflector slots are not written exactly once
with a write preceding every update-task read.  First conjunct: on the 2×2
all-zero matrix the single panel-factor task never writes `up_array[0]`
(ghost write counter stays 0), refuting "written exactly once".  Second and
third conjuncts: in the identity scenario, after tasks `(0,0)` and `(1,0)`
have run — so after the type-2 task `(1,0)` has already loaded
`up_array[2]` — slot 2 still holds its initial 0; the owning factor task
`(1,1)` writes it (to 2) only afterwards, refuting "written strictly
before any update task reads". -/
theorem C5_reflector_counterexample :
    (zeroRun (fun q => q)).upWrites 0 = 0 ∧
    (identityRunMid (fun q => q)).up_array 2 = 0 ∧
    (identityRun (fun q => q)).up_array 2 = 2 := by
  refine ⟨?_, ?_, ?_⟩
  · have h0 : zeroRun (fun q => q) =
        pivotStep (fun q => q) 2 2 2 (pivotStep (fun q => q) 2 2 2 zeroSt 0) 1 := rfl
    have hcl : ∀ p : ℕ, clS zeroSt.mat 2 p = 0 := by
      intro p
      rw [clS, rowScan_unit zeroSt.mat 2 p (fun t _ _ => rfl)]
      norm_num [zeroSt]
    rw [h0, pivotStep_skip (fun q => q) 2 2 2 0 zeroSt (le_of_eq (hcl 0)),
      pivotStep_skip (fun q => q) 2 2 2 1 zeroSt (le_of_eq (hcl 1))]
    rfl
  · rw [identityRunMid_eq (fun q => q) rfl]
    norm_num [Function.update_apply]
  · rw [identityRun_eq (fun q => q) rfl]
    norm_num [Function.update_apply]

/-- C5 (amended): reflector slots are written at most once per
panel-factor call and only at indices inside the call's own pivot range
`[normStart row_start, row_end)` (a degenerate pivot writes nothing);
panel-update tasks never write the slots; but there is no
write-before-read ordering: an update task can execute before the owning
factor task, reading the initial zeros, as task `(1,0)` of the identity
scenario does for slots 2 and 3 (written only by the later task `(1,1)`). -/
theorem C5_reflector_amended (rsqrt : ℚ → ℚ) (m n rs re cs ce q q2 : ℕ)
    (st : QRState) (hq : q < normStart rs ∨ re ≤ q) (hr1 : rsqrt 1 = 1) :
    (complete_task1 rsqrt m n rs re cs ce st).up_array q = st.up_array q ∧
    (complete_task1 rsqrt m n rs re cs ce st).b_array q = st.b_array q ∧
    (complete_task1 rsqrt m n rs re cs ce st).upWrites q = st.upWrites q ∧
    (complete_task1 rsqrt m n rs re cs ce st).upWrites q2 ≤ st.upWrites q2 + 1 ∧
    (complete_task2 m n rs re cs ce st).up_array = st.up_array ∧
    (complete_task2 m n rs re cs ce st).b_array = st.b_array ∧
    (complete_task2 m n rs re cs ce st).upWrites = st.upWrites ∧
    (identityRunMid rsqrt).up_array 2 = 0 ∧
    (identityRun rsqrt).up_array 2 = 2 := by
  obtain ⟨h1, h2, h3⟩ := complete_task1_arrays_ne rsqrt m n rs re cs ce st q hq
  refine ⟨h1, h2, h3, complete_task1_upWrites_le rsqrt m n rs re cs ce st q2,
    rfl, rfl, rfl, ?_, ?_⟩
  · rw [identityRunMid_eq rsqrt hr1]
    norm_num [Function.update_apply]
  · rw [identityRun_eq rsqrt hr1]
    norm_num [Function.update_apply]

theorem C5_reflector_amended_witness :
    ((0 : ℕ) < normStart 2 ∨ (2 : ℕ) ≤ 0) ∧ (fun (q : ℚ) => q) 1 = 1 ∧
    (complete_task1 (fun q => q) 4 4 2 2 0 2 idSt).up_array 0 = idSt.up_array 0 ∧
    (identityRun (fun q => q)).up_array 2 = 2 := by
  have h := C5_reflector_amended (fun q => q) 4 4 2 2 0 2 0 0 idSt
    (Or.inl (by norm_num [normStart])) rfl
  exact ⟨Or.inl (by norm_num [normStart]), rfl, h.1, h.2.2.2.2.2.2.2.2⟩

/-! ### Scheduler lemmas -/

theorem setDep_mono (d : ℤ → ℤ → Bool) (i j a b : ℤ) (h : d a b = true) :
    setDep d i j a b = true := by
  rw [setDep]
  by_cases hc : a = i ∧ b = j
  · rw [if_pos hc]
  · rw [if_neg hc]
    exact h

theorem pushSucc_fold (tbl : ℤ → ℤ → Task) (dep : ℤ → ℤ → Bool) (j : ℤ) :
    ∀ (l : List ℤ) (r w : List Task),
      l.foldl (fun qs k =>
          let nt := tbl k j
          if j = 0 ∨ dep k (j-1) then (qs.1 ++ [nt], qs.2) else (qs.1, qs.2 ++ [nt]))
        (r, w) =
      (r ++ (l.filter (fun k => decide (j = 0 ∨ dep k (j-1) = true))).map
          (fun k => tbl k j),
        w ++ (l.filter (fun k => !decide (j = 0 ∨ dep k (j-1) = true))).map
          (fun k => tbl k j)) := by
  intro l
  induction l with
  | nil => intro r w; simp
  | cons k l ih =>
    intro r w
    rw [List.foldl_cons]
    by_cases hc : j = 0 ∨ dep k (j-1) = true
    · rw [if_pos hc, ih]
      rw [List.filter_cons, List.filter_cons]
      rw [if_pos (by simp [hc]), if_neg (by simp [hc])]
      simp
    · rw [if_neg hc, ih]
      rw [List.filter_cons, List.filter_cons]
      rw [if_neg (by simpa using hc), if_pos (by simpa using hc)]
      simp

theorem pushSuccessors_eq (tbl : ℤ → ℤ → Task) (TR : ℤ) (dep : ℤ → ℤ → Bool)
    (i j : ℤ) (r w : List Task) :
    pushSuccessors tbl TR dep i j r w =
      (r ++ ((intRange (i+1) TR).filter
          (fun k => decide (j = 0 ∨ dep k (j-1) = true))).map (fun k => tbl k j),
        w ++ ((intRange (i+1) TR).filter
          (fun k => !decide (j = 0 ∨ dep k (j-1) = true))).map (fun k => tbl k j)) := by
  rw [pushSuccessors, pushSucc_fold]

theorem stepReady_dep_mono (rsqrt : ℚ → ℚ) (c : SchedCfg) (s : SchedState)
    (a b : ℤ) (h : s.dep a b = true) : (stepReady rsqrt c s).dep a b = true := by
  rw [stepReady]
  rcases hready : s.ready with _ | ⟨t, rest⟩
  · exact h
  · simp only []
    by_cases h1 : t.type = 1
    · rw [if_pos h1]
      exact setDep_mono s.dep t.i t.j a b h
    · rw [if_neg h1]
      by_cases h2 : t.type = 2
      · rw [if_pos h2]
        by_cases h3 : t.enq_nxt_t1 = true ∧ t.j + 1 ≤ c.TC
        · rw [if_pos h3]
          exact setDep_mono s.dep t.i t.j a b h
        · rw [if_neg h3]
          exact setDep_mono s.dep t.i t.j a b h
      · rw [if_neg h2]
        exact h

theorem stepWait_dep (s : SchedState) : (stepWait s).dep = s.dep := by
  rw [stepWait]
  rcases hwait : s.wait with _ | ⟨u, rest⟩
  · rfl
  · simp only []
    by_cases h : s.dep u.i (u.j - 1) = true
    · rw [if_pos h]
    · rw [if_neg h]

/-- C2: a worker's loop iteration exits exactly when the dependency flag
`(TR-1, R·(TR-1))` — the final panel's type-1 factor task — reads true;
the exit decision is a function of that single cell only (tables agreeing
there decide identically); and once the flag is true it stays true through
any further iteration, so every worker that evaluates the predicate
exits. -/
theorem C2_termination (rsqrt : ℚ → ℚ) (c : SchedCfg) (s : SchedState)
    (d d2 : ℤ → ℤ → Bool)
    (hagree : d (c.TR - 1) (c.R * (c.TR - 1)) = d2 (c.TR - 1) (c.R * (c.TR - 1)))
    (hset : termFlag c.TR c.R s.dep = true) :
    (workerIter rsqrt c s).2 = termFlag c.TR c.R (workerIter rsqrt c s).1.dep ∧
    termFlag c.TR c.R d = termFlag c.TR c.R d2 ∧
    (workerIter rsqrt c s).2 = true := by
  refine ⟨rfl, ?_, ?_⟩
  · rw [termFlag, termFlag, hagree]
  · show termFlag c.TR c.R (stepWait (stepReady rsqrt c s)).dep = true
    rw [termFlag, stepWait_dep]
    rw [termFlag] at hset
    exact stepReady_dep_mono rsqrt c s _ _ hset

theorem C2_termination_witness :
    (fun (_ _ : ℤ) => true) (1 - 1) (1 * (1 - 1)) =
        (fun (_ _ : ℤ) => true) (1 - 1) (1 * (1 - 1)) ∧
    termFlag 1 1 (fun _ _ => true) = true ∧
    (workerIter (fun q => q) ⟨1, 1, 1, 2, 2, getTask 1 1 2 2 2⟩
      ⟨[], [], fun _ _ => true, zeroSt⟩).2 = true :=
  ⟨rfl, rfl,
    (C2_termination (fun q => q) ⟨1, 1, 1, 2, 2, getTask 1 1 2 2 2⟩
      ⟨[], [], fun _ _ => true, zeroSt⟩ (fun _ _ => true) (fun _ _ => true)
      rfl rfl).2.2⟩

/-- C3: when a worker pops a type-1 task `(i, j)` it sets dependency
`(i, j)` and then, for every `k` with `i < k < TR`, looks up task `(k, j)`
and appends it to the ready queue when `j = 0` or dependency `(k, j-1)`
holds, and to the wait queue otherwise; the resulting queues are exactly
the old queues extended by this partition — nothing else is enqueued. -/
theorem C3_type1_successors (rsqrt : ℚ → ℚ) (c : SchedCfg) (s : SchedState)
    (t : Task) (rest : List Task)
    (hready : s.ready = t :: rest) (htype : t.type = 1) :
    (stepReady rsqrt c s).dep = setDep s.dep t.i t.j ∧
    (stepReady rsqrt c s).ready =
      rest ++ ((intRange (t.i+1) c.TR).filter
        (fun k => decide (t.j = 0 ∨ setDep s.dep t.i t.j k (t.j-1) = true))).map
        (fun k => c.tbl k t.j) ∧
    (stepReady rsqrt c s).wait =
      s.wait ++ ((intRange (t.i+1) c.TR).filter
        (fun k => !decide (t.j = 0 ∨ setDep s.dep t.i t.j k (t.j-1) = true))).map
        (fun k => c.tbl k t.j) := by
  rw [stepReady, hready]
  simp only []
  rw [if_pos htype, pushSuccessors_eq]
  exact ⟨rfl, rfl, rfl⟩

theorem C3_type1_successors_witness :
    (⟨[idTbl 0 0], [], fun _ _ => false, idSt⟩ : SchedState).ready =
        idTbl 0 0 :: [] ∧
    (idTbl 0 0).type = 1 ∧
    (stepReady (fun q => q) ⟨2, 2, 1, 4, 4, idTbl⟩
        ⟨[idTbl 0 0], [], fun _ _ => false, idSt⟩).ready =
      [] ++ ((intRange ((idTbl 0 0).i + 1) 2).filter
        (fun k => decide ((idTbl 0 0).j = 0 ∨
          setDep (fun _ _ => false) (idTbl 0 0).i (idTbl 0 0).j k
            ((idTbl 0 0).j - 1) = true))).map (fun k => idTbl k (idTbl 0 0).j) :=
  ⟨rfl, rfl,
    (C3_type1_successors (fun q => q) ⟨2, 2, 1, 4, 4, idTbl⟩
      ⟨[idTbl 0 0], [], fun _ _ => false, idSt⟩ (idTbl 0 0) [] rfl rfl).2.1⟩

/-! ### Wait-queue invariant (C9) -/

theorem stepReady_inv (rsqrt : ℚ → ℚ) (c : SchedCfg) (hco : TblCoords c.tbl)
    (s : SchedState) (hinv : QueueInv s) : QueueInv (stepReady rsqrt c s) := by
  obtain ⟨hr, hw⟩ := hinv
  rw [stepReady]
  rcases hready : s.ready with _ | ⟨t, rest⟩
  · exact ⟨hr, hw⟩
  · have htj : 0 ≤ t.j := hr t (hready ▸ List.mem_cons_self t rest)
    have hrest : ∀ x ∈ rest, 0 ≤ x.j := fun x hx =>
      hr x (hready ▸ List.mem_cons_of_mem t hx)
    simp only []
    by_cases h1 : t.type = 1
    · rw [if_pos h1, pushSuccessors_eq]
      constructor
      · intro x hx
        rcases List.mem_append.mp hx with hx1 | hx2
        · exact hrest x hx1
        · obtain ⟨k, _, hk2⟩ := List.mem_map.mp hx2
          rw [← hk2, (hco k t.j).2]
          exact htj
      · intro x hx
        rcases List.mem_append.mp hx with hx1 | hx2
        · exact hw x hx1
        · obtain ⟨k, hk1, hk2⟩ := List.mem_map.mp hx2
          have hcond := (List.mem_filter.mp hk1).2
          have hne : ¬ (t.j = 0 ∨ setDep s.dep t.i t.j k (t.j-1) = true) := by
            simpa using hcond
          rw [← hk2, (hco k t.j).2]
          have : t.j ≠ 0 := fun hz => hne (Or.inl hz)
          omega
    · rw [if_neg h1]
      by_cases h2 : t.type = 2
      · rw [if_pos h2]
        by_cases h3 : t.enq_nxt_t1 = true ∧ t.j + 1 ≤ c.TC
        · rw [if_pos h3]
          refine ⟨?_, hw⟩
          intro x hx
          rcases List.mem_append.mp hx with hx1 | hx2
          · exact hrest x hx1
          · rw [List.mem_singleton.mp hx2, (hco ((t.j + 1) / c.R) (t.j + 1)).2]
            omega
        · rw [if_neg h3]
          exact ⟨hrest, hw⟩
      · rw [if_neg h2]
        exact ⟨hrest, hw⟩

theorem stepWait_inv (s : SchedState) (hinv : QueueInv s) :
    QueueInv (stepWait s) := by
  obtain ⟨hr, hw⟩ := hinv
  rw [stepWait]
  rcases hwait : s.wait with _ | ⟨u, rest⟩
  · exact ⟨hr, hw⟩
  · have huj : 1 ≤ u.j := hw u (hwait ▸ List.mem_cons_self u rest)
    have hrest : ∀ x ∈ rest, 1 ≤ x.j := fun x hx =>
      hw x (hwait ▸ List.mem_cons_of_mem u hx)
    simp only []
    by_cases h : s.dep u.i (u.j - 1) = true
    · rw [if_pos h]
      refine ⟨?_, hrest⟩
      intro x hx
      rcases List.mem_append.mp hx with hx1 | hx2
      · exact hr x hx1
      · rw [List.mem_singleton.mp hx2]
        omega
    · rw [if_neg h]
      refine ⟨hr, ?_⟩
      intro x hx
      rcases List.mem_append.mp hx with hx1 | hx2
      · exact hrest x hx1
      · rw [List.mem_singleton.mp hx2]
        exact huj

theorem workerIter_inv (rsqrt : ℚ → ℚ) (c : SchedCfg) (hco : TblCoords c.tbl)
    (s : SchedState) (hinv : QueueInv s) : QueueInv (workerIter rsqrt c s).1 :=
  stepWait_inv _ (stepReady_inv rsqrt c hco s hinv)

theorem runSched_inv (rsqrt : ℚ → ℚ) (c : SchedCfg) (hco : TblCoords c.tbl) :
    ∀ (fuel : ℕ) (s : SchedState), QueueInv s →
      QueueInv (runSched rsqrt c fuel s) := by
  intro fuel
  induction fuel with
  | zero => intro s hinv; exact hinv
  | succ f ih =>
    intro s hinv
    rw [runSched]
    exact ih _ (workerIter_inv rsqrt c hco s hinv)

theorem initSched_inv (c : SchedCfg) (hco : TblCoords c.tbl) (qr : QRState) :
    QueueInv (initSched c qr) := by
  constructor
  · intro x hx
    rw [List.mem_singleton.mp hx, (hco 0 0).2]
  · intro x hx
    exact absurd hx (List.not_mem_nil x)

/-- C9: every task ever held by the wait queue has column index `j ≥ 1`:
the invariant holds of the initial state, is preserved by every worker
iteration, and hence holds of every state reachable from the seed; for a
task popped off the wait queue the dependency column read by the re-check,
`j - 1`, is therefore nonnegative — the unguarded `dependency(i, j-1)`
lookup never indexes column `-1`. -/
theorem C9_wait_queue_nonneg (rsqrt : ℚ → ℚ) (c : SchedCfg) (s : SchedState)
    (qr0 : QRState) (fuel : ℕ) (u : Task)
    (hco : TblCoords c.tbl) (hinv : QueueInv s) (hu : u ∈ s.wait) :
    QueueInv (initSched c qr0) ∧
    QueueInv (workerIter rsqrt c s).1 ∧
    QueueInv (runSched rsqrt c fuel (initSched c qr0)) ∧
    1 ≤ u.j ∧ 0 ≤ u.j - 1 := by
  have huj : 1 ≤ u.j := hinv.2 u hu
  exact ⟨initSched_inv c hco qr0, workerIter_inv rsqrt c hco s hinv,
    runSched_inv rsqrt c hco fuel _ (initSched_inv c hco qr0), huj, by omega⟩

theorem C9_wait_queue_nonneg_witness :
    TblCoords idTbl ∧
    QueueInv (⟨[], [idTbl 1 1], fun _ _ => false, idSt⟩ : SchedState) ∧
    idTbl 1 1 ∈ (⟨[], [idTbl 1 1], fun _ _ => false, idSt⟩ : SchedState).wait ∧
    (1 ≤ (idTbl 1 1).j ∧ 0 ≤ (idTbl 1 1).j - 1) := by
  have hco : TblCoords idTbl := fun i j => ⟨rfl, rfl⟩
  have hinv : QueueInv (⟨[], [idTbl 1 1], fun _ _ => false, idSt⟩ : SchedState) := by
    constructor
    · intro x hx
      exact absurd hx (List.not_mem_nil x)
    · intro x hx
      rw [List.mem_singleton.mp hx]
      decide
  have h := C9_wait_queue_nonneg (fun q => q) ⟨2, 2, 1, 4, 4, idTbl⟩
    ⟨[], [idTbl 1 1], fun _ _ => false, idSt⟩ idSt 1 (idTbl 1 1) hco hinv
    (List.mem_singleton.mpr rfl)
  exact ⟨hco, hinv, List.mem_singleton.mpr rfl, h.2.2.2⟩

/-! ### Driver validation (C6) -/

/-- C6 counterexample: `dagqrf` performs no entry validation.  Called with
`mat_rows = mat_cols = 0` — an invalid configuration the claim says must be
rejected before touching the matrix — the entry still proceeds (returns
`some` grid dimensions), while the spec-modelled validation of §4.7
rejects the same input. -/
theorem C6_validation_counterexample :
    dagqrfEntry 0 0 = some (0, 0) ∧
    specValidate 0 0 NUMTHREADS ALPHA BETA = none := by
  constructor
  · rfl
  · norm_num [specValidate]

/-- C6 (amended): the driver performs no configuration validation: every
call proceeds directly to grid-size computation and table initialization
(the entry is `some` for all inputs, so there is no fail-fast path).  The
block parameters are the compile-time constants `ALPHA = BETA = 11` with
worker count `NUM_THREADS = 26`, which satisfy positivity and
`BETA % ALPHA = 0` by construction; only the runtime matrix dimensions go
unchecked. -/
theorem C6_validation_amended (mat_rows mat_cols : ℕ) :
    (dagqrfEntry mat_rows mat_cols).isSome = true ∧
    0 < ALPHA ∧ 0 < BETA ∧ BETA % ALPHA = 0 ∧ 0 < NUMTHREADS :=
  ⟨rfl, by norm_num [ALPHA], by norm_num [BETA], by norm_num [ALPHA, BETA],
    by norm_num [NUMTHREADS]⟩

end ParQR
